import Mathlib

/-!
Verification of the per-region mesh-generation pipeline of the
`brainglobe-atlasapi` atlas-generation scripts
(`allen_bbp_ccfv3a_entire_mouse_brain.py` and `demba_dev_mouse.py`).

The embedding models:
* the annotation volume (3-dimensional integer array) and the label index
  `labels = np.unique(annotated_volume).astype(np.int32)`;
* the `is_label` tagging of tree nodes (`node.data = Region(is_label)`);
* `filter_structures_not_present_in_annotation`;
* `hex_to_rgb` and `flatten_structure_tree`;
* the catalog-building loop of `retrieve_or_construct_meshes` over the
  mesh-file directory;
* `create_region_mesh` (whose code lives in
  `brainglobe_atlasapi.atlas_generation.mesh_utils`, outside the sources at
  hand) modelled from the specification.
-/

/-- An annotation volume: a 3-dimensional array of integer voxel labels. -/
abbrev Volume := List (List (List Int))

/-- All voxel values of a volume, flattened (the order `np.unique` scans). -/
def voxelList (vol : Volume) : List Int :=
  vol.flatten.flatten

/-- `numpy` `astype(np.int32)` conversion: wrap-around into
`[-2^31, 2^31)`. -/
def toInt32 (v : Int) : Int :=
  let r := v % (2 ^ 32 : Int)
  if r < 2 ^ 31 then r else r - 2 ^ 32

/-- `labels = np.unique(annotated_volume).astype(np.int32)`: the distinct
voxel values of the volume, converted to 32-bit signed integers.  (`np.unique`
additionally sorts the values; only membership in `labels` is ever used by the
scripts, so the deduplicated list represents it.) -/
def labelsOf (vol : Volume) : List Int :=
  ((voxelList vol).map toInt32).dedup

/-- `Region` data attached to every tree node (mesh_utils `Region`). -/
structure Region where
  is_label : Bool

/-- The tagging loop body: `if key in labels: is_label = True else:
is_label = False; node.data = Region(is_label)`. -/
def tagRegion (labels : List Int) (key : Int) : Region :=
  if key ∈ labels then ⟨true⟩ else ⟨false⟩

/-- A flattened structure record, as produced by `flatten_structure_tree`
and consumed by the filtering and catalog loops.  `rgb_triplet` is `none`
when `hex_to_rgb` would raise on the node's colour string. -/
structure StructureRecord where
  id : Int
  name : String
  acronym : String
  structure_id_path : List Int
  rgb_triplet : Option (List Nat)
deriving DecidableEq

/-- `present_ids = set(np.unique(annotation))` (no integer cast here). -/
def presentIds (vol : Volume) : List Int :=
  (voxelList vol).dedup

/-- `filter_structures_not_present_in_annotation`:
`[s for s in structures if s["id"] in present_ids]`. -/
def filter_structures_not_present (structures : List StructureRecord)
    (vol : Volume) : List StructureRecord :=
  structures.filter (fun s => decide (s.id ∈ presentIds vol))

/-- Position of a character in a digit alphabet (`none` when absent). -/
def hexDigitIdx : List Char → Char → Option Nat
  | [], _ => none
  | d :: rest, c =>
    if c = d then some 0 else (hexDigitIdx rest c).map (fun i => i + 1)

/-- The value of a hexadecimal digit character, upper or lower case (the
digits that Python `int(s, 16)` accepts in a bare two-character slice): its
position in the base-16 digit alphabet. -/
def hexDigitVal (c : Char) : Option Nat :=
  hexDigitIdx "0123456789abcdef".toList c.toLower

/-- Python `int(s, 16)` on a string of bare hexadecimal digits: base-16
positional value; the empty string (and any non-digit character) raises,
modelled as `none`. -/
def int16 (cs : List Char) : Option Nat :=
  match cs with
  | [] => none
  | _ =>
    cs.foldl
      (fun acc c =>
        match acc, hexDigitVal c with
        | some a, some v => some (16 * a + v)
        | _, _ => none)
      (some 0)

/-- Python `hex_string.lstrip("#")`. -/
def lstripHash (cs : List Char) : List Char :=
  cs.dropWhile (fun c => c == '#')

/-- Python slice `cs[i:j]` for `0 ≤ i ≤ j`. -/
def pySlice (cs : List Char) (i j : Nat) : List Char :=
  (cs.drop i).take (j - i)

/-- `hex_to_rgb`: strip leading `#`, then
`[int(hex_string[i:i+2], 16) for i in (0, 2, 4)]`; `none` models the
exception raised when a slice is not a hexadecimal numeral. -/
def hex_to_rgb (hex_string : List Char) : Option (List Nat) :=
  let s := lstripHash hex_string
  match int16 (pySlice s 0 2), int16 (pySlice s 2 4), int16 (pySlice s 4 6) with
  | some r, some g, some b => some [r, g, b]
  | _, _, _ => none

/-- A node of the input structure hierarchy (a JSON node with fields `id`,
`name`, `acronym`, `color_hex_triplet` and a list of children, an absent
`children` field being the empty list). -/
inductive SNode where
  | mk (id : Int) (name acronym color_hex_triplet : String)
      (children : List SNode)

def SNode.id : SNode → Int
  | .mk i _ _ _ _ => i

def SNode.children : SNode → List SNode
  | .mk _ _ _ _ cs => cs

/-- The record `flatten_structure_tree` builds for a node reached with
accumulated path `p`. -/
def recordOf (n : SNode) (p : List Int) : StructureRecord :=
  match n with
  | .mk i nm ac hex _ =>
    { id := i, name := nm, acronym := ac,
      structure_id_path := p ++ [i],
      rgb_triplet := hex_to_rgb hex.toList }

mutual
/-- `flatten_structure_tree(node, structure_id_path)`: emit the record for
the current node, then recursively the records of all children with the
extended path (the top-level call passes `None`, i.e. `[]`). -/
def flatten_structure_tree (n : SNode) (structure_id_path : List Int) :
    List StructureRecord :=
  match n with
  | .mk i nm ac hex cs =>
    { id := i, name := nm, acronym := ac,
      structure_id_path := structure_id_path ++ [i],
      rgb_triplet := hex_to_rgb hex.toList } ::
      flattenChildren cs (structure_id_path ++ [i])
/-- The `for child in node["children"]: entries.extend(...)` loop. -/
def flattenChildren (cs : List SNode) (p : List Int) : List StructureRecord :=
  match cs with
  | [] => []
  | c :: rest => flatten_structure_tree c p ++ flattenChildren rest p
end

mutual
/-- Number of nodes of a tree. -/
def SNode.size : SNode → Nat
  | .mk _ _ _ _ cs => 1 + sizeChildren cs
/-- Number of nodes of a forest. -/
def sizeChildren : List SNode → Nat
  | [] => 0
  | c :: rest => SNode.size c + sizeChildren rest
end

/-- `InTree root q m`: node `m` occurs in the tree rooted at `root`, and the
ids of the nodes strictly above `m` (from `root` down to `m`'s parent) are
`q`.  `flatten_structure_tree root []` reaches `m` with accumulated path
`q`. -/
inductive InTree (root : SNode) : List Int → SNode → Prop where
  | self : InTree root [] root
  | child {q : List Int} {m c : SNode} : InTree root q m →
      c ∈ m.children → InTree root (q ++ [m.id]) c

/-- A colour string the claims range over: six hexadecimal digits preceded by
any number of `#` characters. -/
def WellHex (s : String) : Prop :=
  ∃ (k : Nat) (ds : List Char),
    s.toList = List.replicate k '#' ++ ds ∧ ds.length = 6 ∧
      ∀ c ∈ ds, (hexDigitVal c).isSome

mutual
/-- Every node of the tree carries a well-formed colour string. -/
def TreeHexOk : SNode → Prop
  | .mk _ _ _ hex cs => WellHex hex ∧ ChildrenHexOk cs
/-- Every node of the forest carries a well-formed colour string. -/
def ChildrenHexOk : List SNode → Prop
  | [] => True
  | c :: rest => TreeHexOk c ∧ ChildrenHexOk rest
end

/-- The mesh file name used for a region id, `f"{id}.obj"`, relative to the
`meshes` directory both loops key their files by. -/
def objPath (id : Int) : String :=
  toString id ++ ".obj"

/-- The mesh directory contents: a map from file name to file bytes (`none`
when no such file exists; a file's `st_size` is the length of its bytes). -/
abbrev FS := String → Option (List Nat)

/-- The validity check of the catalog loop on a region id: the file
`<id>.obj` exists (`mesh_path.exists()`) and is not too small
(`not (mesh_path.stat().st_size < 512)`). -/
def fileOk (fs : FS) (id : Int) : Bool :=
  match fs (objPath id) with
  | none => false
  | some bytes => decide (512 ≤ bytes.length)

/-- The catalog-building loop of `retrieve_or_construct_meshes`: for each
record `s`, skip when no mesh file exists or the file is smaller than 512
bytes, otherwise set `meshes_dict[s["id"]] = mesh_path`. -/
def buildMeshesDict (structures : List StructureRecord) (fs : FS) :
    Int → Option String :=
  structures.foldl
    (fun d s =>
      if fileOk fs s.id then
        fun k => if k = s.id then some (objPath s.id) else d k
      else d)
    (fun _ => none)

/-- Outcome of processing one node (the spec's per-node state machine:
already-written files are skipped, an empty mask is the terminal `Empty`
state, other failures are non-fatal, otherwise the mesh is written). -/
inductive NodeOutcome where
  | skipped
  | empty
  | written
  | failed
deriving DecidableEq

/-- A node of the structure tree as seen by the mesh loop (only its id, the
key under which its mesh file is stored, is relevant here). -/
structure MeshNode where
  id : Int
deriving DecidableEq

/-- Modelled from the spec: `create_region_mesh` is imported from
`brainglobe_atlasapi.atlas_generation.mesh_utils`, whose code is not among
the sources at hand.  Per the spec (§4.4-§4.6, §7): if a file for the node
already exists in the output directory, recomputation is skipped entirely;
an empty aggregated mask is the expected non-fatal `EmptyRegion` outcome and
no mesh is written; every other per-node failure is caught at the node
boundary, logged, and nothing is written; otherwise the mesh is extracted,
post-processed and written to `<id>.obj`.  The geometric oracles `maskEmpty`
(does the node's aggregated mask contain no voxel) and `meshResult` (the
bytes the extractor produces for the node, `none` modelling a caught
per-node failure) abstract the out-of-scope geometry. -/
def create_region_mesh (maskEmpty : Int → Bool)
    (meshResult : Int → Option (List Nat)) (node : MeshNode) (fs : FS) :
    NodeOutcome × FS :=
  if (fs (objPath node.id)).isSome then (NodeOutcome.skipped, fs)
  else if maskEmpty node.id then (NodeOutcome.empty, fs)
  else
    match meshResult node.id with
    | none => (NodeOutcome.failed, fs)
    | some bytes =>
      (NodeOutcome.written,
        fun p => if p = objPath node.id then some bytes else fs p)

/-- The per-node mesh loop of `retrieve_or_construct_meshes`
(`for node in track(tree.nodes.values(), ...): create_region_mesh(...)`),
returning the outcome of every node in order and the final directory
contents. -/
def runMeshLoop (maskEmpty : Int → Bool)
    (meshResult : Int → Option (List Nat)) (nodes : List MeshNode)
    (fs : FS) : List NodeOutcome × FS :=
  match nodes with
  | [] => ([], fs)
  | n :: rest =>
    let r := create_region_mesh maskEmpty meshResult n fs
    let rr := runMeshLoop maskEmpty meshResult rest r.2
    (r.1 :: rr.1, rr.2)

/-- A two-node demonstration tree used to instantiate the tree theorems. -/
def demoChild : SNode := SNode.mk 2 "child" "ch" "00ff00" []

/-- Root of the demonstration tree. -/
def demoRoot : SNode := SNode.mk 1 "brain" "br" "ff0000" [demoChild]

/-- A demonstration record used to instantiate the catalog theorems. -/
def demoRecord : StructureRecord :=
  { id := 7, name := "region", acronym := "rg", structure_id_path := [7],
    rgb_triplet := none }

/-- A demonstration mesh directory holding one 512-byte file `7.obj`. -/
def demoFS : FS :=
  fun p => if p = objPath 7 then some (List.replicate 512 0) else none

/-- A demonstration empty mesh directory. -/
def demoFSEmpty : FS := fun _ => none

/-- A demonstration mask oracle: no region is empty. -/
def demoMaskEmpty : Int → Bool := fun _ => false

/-- A demonstration extraction oracle: meshing fails for region 2 and
produces a 512-byte mesh for every other region. -/
def demoMeshResult : Int → Option (List Nat) :=
  fun i => if i = 2 then none else some (List.replicate 512 0)

theorem toInt32_eq_of_lt {v : Int} (h0 : 0 ≤ v) (h1 : v < 2 ^ 31) :
    toInt32 v = v := by
  have hlt : v < (2 ^ 32 : Int) := by
    calc v < 2 ^ 31 := h1
    _ < 2 ^ 32 := by norm_num
  unfold toInt32
  rw [Int.emod_eq_of_lt h0 hlt]
  show (if v < 2 ^ 31 then v else v - 2 ^ 32) = v
  split
  · rfl
  · omega

theorem mem_labelsOf {vol : Volume}
    (hrange : ∀ v ∈ voxelList vol, 0 ≤ v ∧ v < 2 ^ 31) (x : Int) :
    x ∈ labelsOf vol ↔ x ∈ voxelList vol := by
  unfold labelsOf
  rw [List.mem_dedup, List.mem_map]
  constructor
  · rintro ⟨v, hv, rfl⟩
    have := hrange v hv
    rwa [toInt32_eq_of_lt this.1 this.2]
  · intro hx
    refine ⟨x, hx, ?_⟩
    have := hrange x hx
    exact toInt32_eq_of_lt this.1 this.2

/-- C2 (counterexample): on a volume containing a voxel labelled 0, the label
index `np.unique(annotated_volume).astype(np.int32)` does contain 0, so
"label 0 is never a member of this set" fails as stated. -/
theorem labels_zero_member_C2_cex :
    (0 : Int) ∈ labelsOf [[[0, 5]]] := by decide

/-- C2 (amended): the label index is exactly the set of distinct values
occurring in the annotation volume (for volumes of non-negative labels below
`2^31`, where the `int32` conversion is the identity); in particular 0 is a
member precisely when some voxel is labelled 0, rather than never. -/
theorem labelsOf_spec_C2 (vol : Volume)
    (hrange : ∀ v ∈ voxelList vol, 0 ≤ v ∧ v < 2 ^ 31) :
    (labelsOf vol).Nodup ∧
      (∀ x : Int, x ∈ labelsOf vol ↔ x ∈ voxelList vol) ∧
      ((0 : Int) ∈ labelsOf vol ↔ (0 : Int) ∈ voxelList vol) := by
  refine ⟨List.nodup_dedup _, fun x => mem_labelsOf hrange x, ?_⟩
  exact mem_labelsOf hrange 0

theorem labelsOf_spec_C2_witness :
    (∀ v ∈ voxelList [[[0, 5]]], 0 ≤ v ∧ v < 2 ^ 31) ∧
      ((0 : Int) ∈ labelsOf [[[0, 5]]] ↔ (0 : Int) ∈ voxelList [[[0, 5]]]) :=
  ⟨by decide, (labelsOf_spec_C2 [[[0, 5]]] (by decide)).2.2⟩

/-- C3: after the tagging loop, a node keyed by `key` carries
`is_label = true` exactly when `key` occurs as a voxel value of the
annotation volume (volumes of non-negative labels below `2^31`); a node
whose id is absent gets `is_label = false` no matter what its descendants
are. -/
theorem tagRegion_is_label_C3 (vol : Volume) (key : Int)
    (hrange : ∀ v ∈ voxelList vol, 0 ≤ v ∧ v < 2 ^ 31) :
    (tagRegion (labelsOf vol) key).is_label = true ↔ key ∈ voxelList vol := by
  unfold tagRegion
  constructor
  · intro h
    by_contra hk
    rw [if_neg (fun hc => hk ((mem_labelsOf hrange key).mp hc))] at h
    exact Bool.false_ne_true h
  · intro hk
    rw [if_pos ((mem_labelsOf hrange key).mpr hk)]

theorem tagRegion_is_label_C3_witness :
    (∀ v ∈ voxelList [[[1, 5]]], 0 ≤ v ∧ v < 2 ^ 31) ∧
      (tagRegion (labelsOf [[[1, 5]]]) 5).is_label = true :=
  ⟨by decide,
    (tagRegion_is_label_C3 [[[1, 5]]] 5 (by decide)).mpr (by decide)⟩

theorem mem_presentIds (vol : Volume) (x : Int) :
    x ∈ presentIds vol ↔ x ∈ voxelList vol :=
  List.mem_dedup

/-- C4: `filter_structures_not_present_in_annotation` returns exactly the
input records whose id occurs as a voxel value of the annotation volume:
the output is a sublist of the input (records unchanged, relative order
kept, the rest deleted), an input record is kept exactly when its id occurs
in the volume, and every output record is an input record whose id occurs
in the volume. -/
theorem filter_structures_spec_C4 (structures : List StructureRecord)
    (vol : Volume) :
    (filter_structures_not_present structures vol).Sublist structures ∧
      (∀ s ∈ structures,
        s ∈ filter_structures_not_present structures vol ↔
          s.id ∈ voxelList vol) ∧
      (∀ s ∈ filter_structures_not_present structures vol,
        s ∈ structures ∧ s.id ∈ voxelList vol) := by
  unfold filter_structures_not_present
  refine ⟨List.filter_sublist _, ?_, ?_⟩
  · intro s hs
    rw [List.mem_filter]
    constructor
    · rintro ⟨-, h⟩
      exact (mem_presentIds vol s.id).mp (of_decide_eq_true h)
    · intro h
      exact ⟨hs, decide_eq_true ((mem_presentIds vol s.id).mpr h)⟩
  · intro s hs
    rw [List.mem_filter] at hs
    exact ⟨hs.1, (mem_presentIds vol s.id).mp (of_decide_eq_true hs.2)⟩

theorem filter_structures_spec_C4_witness :
    ({ id := 5, name := "a", acronym := "a", structure_id_path := [5],
        rgb_triplet := none : StructureRecord } ∈
      filter_structures_not_present
        [{ id := 5, name := "a", acronym := "a", structure_id_path := [5],
            rgb_triplet := none }] [[[1, 5]]]) :=
  ((filter_structures_spec_C4
        [{ id := 5, name := "a", acronym := "a", structure_id_path := [5],
            rgb_triplet := none }] [[[1, 5]]]).2.1
      _ (by decide)).mpr (by decide)

/-- C9: the filter is idempotent (applying it twice with the same volume
changes nothing beyond the first application) and returns a sublist of its
input: records are only deleted, never modified, duplicated or
reordered. -/
theorem filter_idempotent_C9 (structures : List StructureRecord)
    (vol : Volume) :
    filter_structures_not_present
        (filter_structures_not_present structures vol) vol =
      filter_structures_not_present structures vol ∧
      (filter_structures_not_present structures vol).Sublist structures := by
  constructor
  · unfold filter_structures_not_present
    rw [List.filter_eq_self]
    intro s hs
    exact (List.mem_filter.mp hs).2
  · exact List.filter_sublist _

theorem flatten_structure_tree_eq (n : SNode) (p : List Int) :
    flatten_structure_tree n p =
      recordOf n p :: flattenChildren n.children (p ++ [n.id]) := by
  cases n
  rfl

theorem mem_flattenChildren {r : StructureRecord} {cs : List SNode}
    {p : List Int} :
    r ∈ flattenChildren cs p ↔
      ∃ c ∈ cs, r ∈ flatten_structure_tree c p := by
  induction cs with
  | nil => simp [flattenChildren]
  | cons c rest ih => simp [flattenChildren, ih]

theorem flattenChildren_decomp {c : SNode} {cs : List SNode} (hc : c ∈ cs)
    (p : List Int) :
    ∃ a b, flattenChildren cs p =
      a ++ flatten_structure_tree c p ++ b := by
  induction cs with
  | nil => cases hc
  | cons d rest ih =>
    rcases List.mem_cons.mp hc with rfl | hmem
    · exact ⟨[], flattenChildren rest p, by simp [flattenChildren]⟩
    · obtain ⟨a, b, hab⟩ := ih hmem
      exact ⟨flatten_structure_tree d p ++ a, b,
        by simp [flattenChildren, hab]⟩

theorem InTree_nil_aux {root : SNode} {q : List Int} {m : SNode}
    (h : InTree root q m) : q = [] → m = root := by
  induction h with
  | self => intro _; rfl
  | child h hc ih => intro hq; exact absurd hq (by simp)

theorem InTree_nil {root m : SNode} (h : InTree root [] m) : m = root :=
  InTree_nil_aux h rfl

theorem InTree_chunk {root : SNode} {q : List Int} {m : SNode}
    (h : InTree root q m) (p : List Int) :
    ∃ pre post, flatten_structure_tree root p =
      pre ++ flatten_structure_tree m (p ++ q) ++ post := by
  induction h with
  | self => exact ⟨[], [], by simp⟩
  | child h hc ih =>
    rename_i q m c
    obtain ⟨pre, post, hpp⟩ := ih
    obtain ⟨a, b, hab⟩ := flattenChildren_decomp hc ((p ++ q) ++ [m.id])
    refine ⟨pre ++ recordOf m (p ++ q) :: a, b ++ post, ?_⟩
    rw [hpp, flatten_structure_tree_eq m (p ++ q), hab]
    simp [List.append_assoc]

theorem recordOf_mem_flatten (n : SNode) (p : List Int) :
    recordOf n p ∈ flatten_structure_tree n p := by
  rw [flatten_structure_tree_eq]
  exact List.mem_cons_self _ _

theorem InTree_record_mem {root : SNode} {q : List Int} {m : SNode}
    (h : InTree root q m) (p : List Int) :
    recordOf m (p ++ q) ∈ flatten_structure_tree root p := by
  obtain ⟨pre, post, hpp⟩ := InTree_chunk h p
  rw [hpp]
  simp [recordOf_mem_flatten]

theorem InTree_tail {root : SNode} {q : List Int} {m : SNode}
    (h : InTree root q m) :
    q ≠ [] → ∀ (p : List Int) (r : StructureRecord),
      r ∈ flatten_structure_tree m (p ++ q) →
      r ∈ (flatten_structure_tree root p).tail := by
  induction h with
  | self => intro hq; exact absurd rfl hq
  | child h hc ih =>
    rename_i q m c
    intro _ p r hr
    by_cases hq : q = []
    · subst hq
      have hroot : m = root := InTree_nil h
      rw [← hroot, flatten_structure_tree_eq m p]
      show r ∈ flattenChildren m.children (p ++ [m.id])
      exact mem_flattenChildren.mpr ⟨c, hc, by simpa using hr⟩
    · apply ih hq p r
      rw [flatten_structure_tree_eq m (p ++ q)]
      apply List.mem_cons_of_mem
      exact mem_flattenChildren.mpr
        ⟨c, hc, by simpa [List.append_assoc] using hr⟩

theorem InTree_trans {root n : SNode} {q u : List Int} {d : SNode}
    (h1 : InTree root q n) (h2 : InTree n u d) :
    InTree root (q ++ u) d := by
  induction h2 with
  | self => simpa using h1
  | child h hc ih =>
    rename_i u m c
    rw [← List.append_assoc]
    exact InTree.child ih hc

mutual
theorem flatten_length (n : SNode) (p : List Int) :
    (flatten_structure_tree n p).length = n.size := by
  cases n with
  | mk i nm ac hex cs =>
    show (flatten_structure_tree (SNode.mk i nm ac hex cs) p).length = _
    rw [flatten_structure_tree_eq]
    show (flattenChildren cs (p ++ [i])).length + 1 = 1 + sizeChildren cs
    rw [flattenChildren_length cs (p ++ [i])]
    omega
theorem flattenChildren_length (cs : List SNode) (p : List Int) :
    (flattenChildren cs p).length = sizeChildren cs := by
  cases cs with
  | nil => rfl
  | cons c rest =>
    show (flatten_structure_tree c p ++ flattenChildren rest p).length = _
    rw [List.length_append, flatten_length c p,
      flattenChildren_length rest p]
    rfl
end

mutual
theorem flatten_last_id (n : SNode) (p : List Int) (r : StructureRecord)
    (hr : r ∈ flatten_structure_tree n p) :
    r.structure_id_path.getLast? = some r.id := by
  cases n with
  | mk i nm ac hex cs =>
    rw [flatten_structure_tree_eq] at hr
    rcases List.mem_cons.mp hr with rfl | hmem
    · show (p ++ [i]).getLast? = some i
      rw [List.getLast?_append_cons]
      rfl
    · exact flattenChildren_last_id cs _ r hmem
theorem flattenChildren_last_id (cs : List SNode) (p : List Int)
    (r : StructureRecord) (hr : r ∈ flattenChildren cs p) :
    r.structure_id_path.getLast? = some r.id := by
  cases cs with
  | nil => cases hr
  | cons c rest =>
    rcases List.mem_append.mp hr with hmem | hmem
    · exact flatten_last_id c p r hmem
    · exact flattenChildren_last_id rest p r hmem
end

theorem recordOf_path (n : SNode) (p : List Int) :
    (recordOf n p).structure_id_path = p ++ [n.id] := by
  cases n
  rfl

/-- C5: in the output of `flatten_structure_tree` on a finite tree, the
root's record comes first with `structure_id_path = [root.id]`; for every
node of the tree, its record's `structure_id_path` is its accumulated
ancestor-id path extended by its own id, and every child's record has the
parent record's path extended by the child's own id; and every emitted
record's path ends in the record's own id. -/
theorem flatten_path_invariant_C5 (root : SNode) :
    ((flatten_structure_tree root []).head? = some (recordOf root []) ∧
      (recordOf root []).structure_id_path = [root.id]) ∧
    (∀ (q : List Int) (n : SNode), InTree root q n →
      recordOf n q ∈ flatten_structure_tree root [] ∧
      (recordOf n q).structure_id_path = q ++ [n.id] ∧
      ∀ c ∈ n.children,
        recordOf c (q ++ [n.id]) ∈ flatten_structure_tree root [] ∧
        (recordOf c (q ++ [n.id])).structure_id_path =
          (recordOf n q).structure_id_path ++ [c.id]) ∧
    (∀ r ∈ flatten_structure_tree root [],
      r.structure_id_path.getLast? = some r.id) := by
  refine ⟨⟨?_, ?_⟩, ?_, ?_⟩
  · rw [flatten_structure_tree_eq]
    rfl
  · rw [recordOf_path]
    rfl
  · intro q n hn
    refine ⟨by simpa using InTree_record_mem hn [], recordOf_path n q, ?_⟩
    intro c hc
    constructor
    · simpa using InTree_record_mem (InTree.child hn hc) []
    · rw [recordOf_path, recordOf_path]
  · intro r hr
    exact flatten_last_id root [] r hr

theorem flatten_path_invariant_C5_witness :
    recordOf demoChild ([] ++ [demoRoot.id]) ∈
        flatten_structure_tree demoRoot [] ∧
      (recordOf demoChild ([] ++ [demoRoot.id])).structure_id_path =
        (recordOf demoRoot []).structure_id_path ++ [demoChild.id] :=
  ((flatten_path_invariant_C5 demoRoot).2.1 [] demoRoot InTree.self).2.2
    demoChild (by simp [demoRoot, SNode.children])

/-- C10: `flatten_structure_tree` is a pre-order traversal: on any finite
tree it emits exactly one record per tree node (the output length is the
node count), and for every node `n` of the tree and every strict descendant
`d` of `n`, `n`'s record occurs in the output strictly before `d`'s
record. -/
theorem flatten_preorder_C10 (root : SNode) :
    (flatten_structure_tree root []).length = root.size ∧
    ∀ (q : List Int) (n : SNode), InTree root q n →
      ∀ (u : List Int) (d : SNode), InTree n u d → u ≠ [] →
        ∃ A B C, flatten_structure_tree root [] =
          A ++ recordOf n q :: (B ++ recordOf d (q ++ u) :: C) := by
  constructor
  · exact flatten_length root []
  · intro q n hn u d hd hu
    obtain ⟨pre, post, hpp⟩ := InTree_chunk hn []
    have hq0 : (([] : List Int) ++ q) = q := by simp
    rw [hq0] at hpp
    have htail : recordOf d (q ++ u) ∈ (flatten_structure_tree n q).tail :=
      InTree_tail hd hu q (recordOf d (q ++ u))
        (recordOf_mem_flatten d (q ++ u))
    obtain ⟨B, C, hBC⟩ := List.append_of_mem htail
    have hcons : flatten_structure_tree n q =
        recordOf n q :: (flatten_structure_tree n q).tail := by
      rw [flatten_structure_tree_eq]
      rfl
    refine ⟨pre, B, C ++ post, ?_⟩
    rw [hpp, hcons, hBC]
    simp [List.append_assoc]

theorem flatten_preorder_C10_witness :
    ∃ A B C, flatten_structure_tree demoRoot [] =
      A ++ recordOf demoRoot [] ::
        (B ++ recordOf demoChild [demoRoot.id] :: C) :=
  (flatten_preorder_C10 demoRoot).2 [] demoRoot InTree.self
    ([] ++ [demoRoot.id]) demoChild
    (InTree.child InTree.self (by simp [demoRoot, SNode.children]))
    (by simp)

theorem hexDigitIdx_lt {l : List Char} {c : Char} {v : Nat}
    (h : hexDigitIdx l c = some v) : v < l.length := by
  induction l generalizing v with
  | nil => cases h
  | cons d rest ih =>
    unfold hexDigitIdx at h
    by_cases hc : c = d
    · rw [if_pos hc] at h
      injection h with h
      simp
      omega
    · rw [if_neg hc] at h
      cases hr : hexDigitIdx rest c with
      | none =>
        rw [hr] at h
        cases h
      | some w =>
        rw [hr] at h
        injection h with h
        simp at h
        have := ih hr
        simp
        omega

theorem hexDigitVal_le {c : Char} {v : Nat} (h : hexDigitVal c = some v) :
    v ≤ 15 := by
  unfold hexDigitVal at h
  have hlt := hexDigitIdx_lt h
  have hlen : ("0123456789abcdef".toList).length = 16 := rfl
  omega

theorem int16_pair {x y : Char} {vx vy : Nat} (hx : hexDigitVal x = some vx)
    (hy : hexDigitVal y = some vy) : int16 [x, y] = some (16 * vx + vy) := by
  simp [int16, hx, hy]

theorem hexDigit_ne_hash {c : Char} (h : (hexDigitVal c).isSome = true) :
    (c == '#') = false := by
  cases hq : c == '#'
  · rfl
  · rw [eq_of_beq hq] at h
    exact absurd h (by decide)

theorem lstripHash_replicate (k : Nat) {ds : List Char}
    (h : ∀ c ∈ ds, (hexDigitVal c).isSome = true) :
    lstripHash (List.replicate k '#' ++ ds) = ds := by
  induction k with
  | zero =>
    rw [List.replicate_zero, List.nil_append]
    cases ds with
    | nil => rfl
    | cons d rest =>
      unfold lstripHash
      rw [List.dropWhile_cons,
        hexDigit_ne_hash (h d (List.mem_cons_self d rest))]
      simp
  | succ k ih =>
    rw [List.replicate_succ, List.cons_append]
    unfold lstripHash at ih ⊢
    rw [List.dropWhile_cons]
    simp [ih]

theorem hex_to_rgb_digits {d1 d2 d3 d4 d5 d6 : Char}
    {v1 v2 v3 v4 v5 v6 : Nat} (k : Nat)
    (h1 : hexDigitVal d1 = some v1) (h2 : hexDigitVal d2 = some v2)
    (h3 : hexDigitVal d3 = some v3) (h4 : hexDigitVal d4 = some v4)
    (h5 : hexDigitVal d5 = some v5) (h6 : hexDigitVal d6 = some v6) :
    hex_to_rgb (List.replicate k '#' ++ [d1, d2, d3, d4, d5, d6]) =
      some [16 * v1 + v2, 16 * v3 + v4, 16 * v5 + v6] := by
  have hall : ∀ c ∈ [d1, d2, d3, d4, d5, d6],
      (hexDigitVal c).isSome = true := by
    intro c hc
    simp only [List.mem_cons, List.not_mem_nil, or_false] at hc
    rcases hc with rfl | rfl | rfl | rfl | rfl | rfl <;>
      simp [h1, h2, h3, h4, h5, h6]
  have hstrip := lstripHash_replicate k hall
  simp only [hex_to_rgb, hstrip]
  rw [show pySlice [d1, d2, d3, d4, d5, d6] 0 2 = [d1, d2] from rfl,
    show pySlice [d1, d2, d3, d4, d5, d6] 2 4 = [d3, d4] from rfl,
    show pySlice [d1, d2, d3, d4, d5, d6] 4 6 = [d5, d6] from rfl,
    int16_pair h1 h2, int16_pair h3 h4, int16_pair h5 h6]

theorem WellHex_rgb {hex : String} (h : WellHex hex) :
    ∃ t, hex_to_rgb hex.toList = some t ∧ t.length = 3 ∧
      ∀ x ∈ t, x ≤ 255 := by
  obtain ⟨k, ds, hds, hlen, hdig⟩ := h
  rcases ds with _ | ⟨e1, ds⟩
  · simp at hlen
  rcases ds with _ | ⟨e2, ds⟩
  · simp at hlen
  rcases ds with _ | ⟨e3, ds⟩
  · simp at hlen
  rcases ds with _ | ⟨e4, ds⟩
  · simp at hlen
  rcases ds with _ | ⟨e5, ds⟩
  · simp at hlen
  rcases ds with _ | ⟨e6, ds⟩
  · simp at hlen
  rcases ds with _ | ⟨e7, ds⟩
  · obtain ⟨v1, hv1⟩ := Option.isSome_iff_exists.mp (hdig e1 (by simp))
    obtain ⟨v2, hv2⟩ := Option.isSome_iff_exists.mp (hdig e2 (by simp))
    obtain ⟨v3, hv3⟩ := Option.isSome_iff_exists.mp (hdig e3 (by simp))
    obtain ⟨v4, hv4⟩ := Option.isSome_iff_exists.mp (hdig e4 (by simp))
    obtain ⟨v5, hv5⟩ := Option.isSome_iff_exists.mp (hdig e5 (by simp))
    obtain ⟨v6, hv6⟩ := Option.isSome_iff_exists.mp (hdig e6 (by simp))
    refine ⟨[16 * v1 + v2, 16 * v3 + v4, 16 * v5 + v6], ?_, rfl, ?_⟩
    · rw [hds]
      exact hex_to_rgb_digits k hv1 hv2 hv3 hv4 hv5 hv6
    · have b1 := hexDigitVal_le hv1
      have b2 := hexDigitVal_le hv2
      have b3 := hexDigitVal_le hv3
      have b4 := hexDigitVal_le hv4
      have b5 := hexDigitVal_le hv5
      have b6 := hexDigitVal_le hv6
      intro x hx
      simp only [List.mem_cons, List.not_mem_nil, or_false] at hx
      rcases hx with rfl | rfl | rfl <;> omega
  · simp at hlen

mutual
theorem flatten_rgb_ok (n : SNode) (hn : TreeHexOk n) (p : List Int)
    (r : StructureRecord) (hr : r ∈ flatten_structure_tree n p) :
    ∃ t, r.rgb_triplet = some t ∧ t.length = 3 ∧ ∀ x ∈ t, x ≤ 255 := by
  cases n with
  | mk i nm ac hex cs =>
    unfold TreeHexOk at hn
    rw [flatten_structure_tree_eq] at hr
    rcases List.mem_cons.mp hr with rfl | hmem
    · exact WellHex_rgb hn.1
    · exact flattenChildren_rgb_ok cs hn.2 _ r hmem
theorem flattenChildren_rgb_ok (cs : List SNode) (hcs : ChildrenHexOk cs)
    (p : List Int) (r : StructureRecord) (hr : r ∈ flattenChildren cs p) :
    ∃ t, r.rgb_triplet = some t ∧ t.length = 3 ∧ ∀ x ∈ t, x ≤ 255 := by
  cases cs with
  | nil => cases hr
  | cons c rest =>
    unfold ChildrenHexOk at hcs
    rcases List.mem_append.mp hr with hmem | hmem
    · exact flatten_rgb_ok c hcs.1 p r hmem
    · exact flattenChildren_rgb_ok rest hcs.2 p r hmem
end

/-- C8: on any input of six hexadecimal digits preceded by any number of
`#` characters, `hex_to_rgb` returns a list of exactly three integers, the
k-th being the base-16 value of the k-th consecutive pair of digits, each
between 0 and 255; consequently, on a tree all of whose colour strings have
that shape, every `rgb_triplet` produced by `flatten_structure_tree` is a
triple of byte values. -/
theorem hex_to_rgb_bytes_C8 :
    (∀ (k : Nat) (d1 d2 d3 d4 d5 d6 : Char) (v1 v2 v3 v4 v5 v6 : Nat),
      hexDigitVal d1 = some v1 → hexDigitVal d2 = some v2 →
      hexDigitVal d3 = some v3 → hexDigitVal d4 = some v4 →
      hexDigitVal d5 = some v5 → hexDigitVal d6 = some v6 →
      hex_to_rgb (List.replicate k '#' ++ [d1, d2, d3, d4, d5, d6]) =
          some [16 * v1 + v2, 16 * v3 + v4, 16 * v5 + v6] ∧
        ∀ x ∈ [16 * v1 + v2, 16 * v3 + v4, 16 * v5 + v6], x ≤ 255) ∧
    ∀ root : SNode, TreeHexOk root →
      ∀ r ∈ flatten_structure_tree root [],
        ∃ t, r.rgb_triplet = some t ∧ t.length = 3 ∧ ∀ x ∈ t, x ≤ 255 := by
  constructor
  · intro k d1 d2 d3 d4 d5 d6 v1 v2 v3 v4 v5 v6 h1 h2 h3 h4 h5 h6
    refine ⟨hex_to_rgb_digits k h1 h2 h3 h4 h5 h6, ?_⟩
    have b1 := hexDigitVal_le h1
    have b2 := hexDigitVal_le h2
    have b3 := hexDigitVal_le h3
    have b4 := hexDigitVal_le h4
    have b5 := hexDigitVal_le h5
    have b6 := hexDigitVal_le h6
    intro x hx
    simp only [List.mem_cons, List.not_mem_nil, or_false] at hx
    rcases hx with rfl | rfl | rfl <;> omega
  · intro root hroot r hr
    exact flatten_rgb_ok root hroot [] r hr

theorem hex_to_rgb_bytes_C8_witness :
    hex_to_rgb (List.replicate 1 '#' ++ ['f', 'f', '0', '0', 'a', 'a']) =
      some [255, 0, 170] :=
  (hex_to_rgb_bytes_C8.1 1 'f' 'f' '0' '0' 'a' 'a' 15 15 0 0 10 10
    rfl rfl rfl rfl rfl rfl).1

theorem buildMeshesDict_aux (fs : FS) (l : List StructureRecord)
    (acc : Int → Option String) (k : Int) :
    (l.foldl
        (fun d s =>
          if fileOk fs s.id then
            fun k2 => if k2 = s.id then some (objPath s.id) else d k2
          else d)
        acc) k =
      if l.any (fun s => decide (s.id = k) && fileOk fs s.id) then
        some (objPath k)
      else acc k := by
  induction l generalizing acc with
  | nil => simp
  | cons s rest ih =>
    rw [List.foldl_cons, ih]
    by_cases hany :
        rest.any (fun s => decide (s.id = k) && fileOk fs s.id) = true
    · simp [hany]
    · rw [Bool.not_eq_true] at hany
      rw [hany]
      by_cases hok : fileOk fs s.id = true
      · by_cases hk : k = s.id
        · subst hk
          simp [hok, hany]
        · have hk2 : decide (s.id = k) = false := by
            simp
            exact fun h => hk h.symm
          simp [hok, hk, hk2, hany]
      · rw [Bool.not_eq_true] at hok
        simp [hok, hany]

theorem buildMeshesDict_eq (structures : List StructureRecord) (fs : FS)
    (k : Int) :
    buildMeshesDict structures fs k =
      if structures.any (fun s => decide (s.id = k) && fileOk fs s.id) then
        some (objPath k)
      else none :=
  buildMeshesDict_aux fs structures (fun _ => none) k

theorem fileOk_iff (fs : FS) (k : Int) :
    fileOk fs k = true ↔
      ∃ bytes, fs (objPath k) = some bytes ∧ 512 ≤ bytes.length := by
  unfold fileOk
  cases h : fs (objPath k) <;> simp [h]

theorem buildMeshesDict_not_ok (structures : List StructureRecord) (fs : FS)
    (k : Int) (h : fileOk fs k = false) :
    buildMeshesDict structures fs k = none := by
  rw [buildMeshesDict_eq]
  have hany :
      structures.any (fun s => decide (s.id = k) && fileOk fs s.id)
        = false := by
    rw [List.any_eq_false]
    intro s hs
    by_cases hid : s.id = k
    · rw [hid]
      simp [h]
    · simp [hid]
  rw [hany]
  rfl

/-- C1: for every input structure record `s`, `s.id` is a key of the catalog
returned by the final loop of `retrieve_or_construct_meshes` iff the file
`<id>.obj` exists with size at least 512 bytes, in which case the catalog
maps `s.id` to exactly that path; moreover every key of the catalog has an
existing, non-degenerate mesh file, and maps to its path. -/
theorem retrieve_meshes_catalog_C1 (structures : List StructureRecord)
    (fs : FS) :
    (∀ s ∈ structures,
      buildMeshesDict structures fs s.id =
        if fileOk fs s.id then some (objPath s.id) else none) ∧
    (∀ s ∈ structures,
      (buildMeshesDict structures fs s.id).isSome = true ↔
        ∃ bytes, fs (objPath s.id) = some bytes ∧ 512 ≤ bytes.length) ∧
    (∀ (k : Int) (q : String), buildMeshesDict structures fs k = some q →
      fileOk fs k = true ∧ q = objPath k) := by
  have key : ∀ s ∈ structures,
      buildMeshesDict structures fs s.id =
        if fileOk fs s.id then some (objPath s.id) else none := by
    intro s hs
    by_cases hok : fileOk fs s.id = true
    · have hany :
          structures.any (fun s2 => decide (s2.id = s.id) && fileOk fs s2.id)
            = true :=
        List.any_eq_true.mpr ⟨s, hs, by simp [hok]⟩
      rw [buildMeshesDict_eq, hany, if_pos rfl, if_pos hok]
    · rw [Bool.not_eq_true] at hok
      rw [buildMeshesDict_not_ok structures fs s.id hok, hok]
      rfl
  refine ⟨key, ?_, ?_⟩
  · intro s hs
    rw [key s hs]
    by_cases hok : fileOk fs s.id = true
    · rw [if_pos hok]
      simp only [Option.isSome_some, true_iff]
      exact (fileOk_iff fs s.id).mp hok
    · rw [if_neg hok]
      simp only [Option.isSome_none, Bool.false_eq_true, false_iff]
      intro hex
      exact hok ((fileOk_iff fs s.id).mpr hex)
  · intro k q hq
    rw [buildMeshesDict_eq] at hq
    by_cases hany :
        structures.any (fun s => decide (s.id = k) && fileOk fs s.id) = true
    · rw [hany, if_pos rfl] at hq
      obtain ⟨s, hs, hsk⟩ := List.any_eq_true.mp hany
      rw [Bool.and_eq_true, decide_eq_true_iff] at hsk
      refine ⟨hsk.1 ▸ hsk.2, (Option.some_inj.mp hq).symm⟩
    · rw [Bool.not_eq_true] at hany
      rw [hany] at hq
      exact absurd hq (by simp)

theorem retrieve_meshes_catalog_C1_witness :
    buildMeshesDict [demoRecord] demoFS demoRecord.id =
      if fileOk demoFS demoRecord.id then some (objPath demoRecord.id)
      else none :=
  (retrieve_meshes_catalog_C1 [demoRecord] demoFS).1 demoRecord
    (List.mem_singleton.mpr rfl)

theorem create_region_mesh_frame (mE : Int → Bool)
    (mR : Int → Option (List Nat)) (n : MeshNode) (fs : FS) (p : String)
    (hp : p ≠ objPath n.id) :
    (create_region_mesh mE mR n fs).2 p = fs p := by
  unfold create_region_mesh
  by_cases h1 : (fs (objPath n.id)).isSome = true
  · simp [h1]
  · rw [Bool.not_eq_true] at h1
    by_cases h2 : mE n.id = true
    · simp [h1, h2]
    · rw [Bool.not_eq_true] at h2
      cases h3 : mR n.id with
      | none => simp [h1, h2, h3]
      | some bytes => simp [h1, h2, h3, hp]

theorem create_region_mesh_preserves (mE : Int → Bool)
    (mR : Int → Option (List Nat)) (n : MeshNode) (fs : FS) (p : String)
    (b : List Nat) (hb : fs p = some b) :
    (create_region_mesh mE mR n fs).2 p = some b := by
  by_cases hp : p = objPath n.id
  · subst hp
    unfold create_region_mesh
    simp [hb]
  · rw [create_region_mesh_frame mE mR n fs p hp]
    exact hb

theorem runMeshLoop_preserves (mE : Int → Bool)
    (mR : Int → Option (List Nat)) (nodes : List MeshNode) (fs : FS)
    (p : String) (b : List Nat) (hb : fs p = some b) :
    (runMeshLoop mE mR nodes fs).2 p = some b := by
  induction nodes generalizing fs with
  | nil => exact hb
  | cons n rest ih =>
    show (runMeshLoop mE mR rest (create_region_mesh mE mR n fs).2).2 p
        = some b
    exact ih _ (create_region_mesh_preserves mE mR n fs p b hb)

theorem runMeshLoop_cons (mE : Int → Bool)
    (mR : Int → Option (List Nat)) (n : MeshNode) (rest : List MeshNode)
    (fs : FS) :
    runMeshLoop mE mR (n :: rest) fs =
      ((create_region_mesh mE mR n fs).1 ::
          (runMeshLoop mE mR rest (create_region_mesh mE mR n fs).2).1,
        (runMeshLoop mE mR rest (create_region_mesh mE mR n fs).2).2) := rfl

theorem runMeshLoop_append (mE : Int → Bool)
    (mR : Int → Option (List Nat)) (a b : List MeshNode) (fs : FS) :
    runMeshLoop mE mR (a ++ b) fs =
      ((runMeshLoop mE mR a fs).1 ++
          (runMeshLoop mE mR b (runMeshLoop mE mR a fs).2).1,
        (runMeshLoop mE mR b (runMeshLoop mE mR a fs).2).2) := by
  induction a generalizing fs with
  | nil => rfl
  | cons n rest ih =>
    rw [List.cons_append, runMeshLoop_cons, ih, runMeshLoop_cons]
    simp

theorem runMeshLoop_length (mE : Int → Bool)
    (mR : Int → Option (List Nat)) (nodes : List MeshNode) (fs : FS) :
    (runMeshLoop mE mR nodes fs).1.length = nodes.length := by
  induction nodes generalizing fs with
  | nil => rfl
  | cons n rest ih => simp [runMeshLoop, ih]

theorem runMeshLoop_frame (mE : Int → Bool)
    (mR : Int → Option (List Nat)) (nodes : List MeshNode) (fs : FS)
    (p : String) (hp : ∀ m ∈ nodes, objPath m.id ≠ p) :
    (runMeshLoop mE mR nodes fs).2 p = fs p := by
  induction nodes generalizing fs with
  | nil => rfl
  | cons n rest ih =>
    show (runMeshLoop mE mR rest (create_region_mesh mE mR n fs).2).2 p
        = fs p
    rw [ih _ (fun m hm => hp m (List.mem_cons_of_mem n hm))]
    exact create_region_mesh_frame mE mR n fs p
      (fun he => hp n (List.mem_cons_self n rest) he.symm)

theorem create_region_mesh_failed (mE : Int → Bool)
    (mR : Int → Option (List Nat)) (n : MeshNode) (fs : FS)
    (hnew : fs (objPath n.id) = none) (hmask : mE n.id = false)
    (hfail : mR n.id = none) :
    create_region_mesh mE mR n fs = (NodeOutcome.failed, fs) := by
  unfold create_region_mesh
  simp [hnew, hmask, hfail]

/-- C6: a failure while generating one region's mesh (other than the
expected empty-region case) does not abort the loop: with the failing node
`n` in the middle of the node list, the loop still emits one outcome per
node, the nodes after `n` are processed exactly as they would have been,
`n`'s file is never written, and `n`'s id is absent from the catalog built
afterwards. -/
theorem mesh_failure_nonfatal_C6 (mE : Int → Bool)
    (mR : Int → Option (List Nat)) (pre post : List MeshNode) (n : MeshNode)
    (fs : FS) (structures : List StructureRecord)
    (hfail : mR n.id = none) (hmask : mE n.id = false)
    (hnew : fs (objPath n.id) = none)
    (hothers : ∀ m ∈ pre ++ post, objPath m.id ≠ objPath n.id) :
    (runMeshLoop mE mR (pre ++ n :: post) fs).1.length =
        pre.length + 1 + post.length ∧
    (runMeshLoop mE mR (pre ++ n :: post) fs).1 =
        (runMeshLoop mE mR pre fs).1 ++ NodeOutcome.failed ::
          (runMeshLoop mE mR post (runMeshLoop mE mR pre fs).2).1 ∧
    (runMeshLoop mE mR (pre ++ n :: post) fs).2 (objPath n.id) = none ∧
    buildMeshesDict structures
        ((runMeshLoop mE mR (pre ++ n :: post) fs).2) n.id = none := by
  have hpre : ∀ m ∈ pre, objPath m.id ≠ objPath n.id := fun m hm =>
    hothers m (List.mem_append.mpr (Or.inl hm))
  have hpost : ∀ m ∈ post, objPath m.id ≠ objPath n.id := fun m hm =>
    hothers m (List.mem_append.mpr (Or.inr hm))
  have h1 : (runMeshLoop mE mR pre fs).2 (objPath n.id) = none := by
    rw [runMeshLoop_frame mE mR pre fs (objPath n.id) hpre]
    exact hnew
  have hstep : create_region_mesh mE mR n (runMeshLoop mE mR pre fs).2 =
      (NodeOutcome.failed, (runMeshLoop mE mR pre fs).2) :=
    create_region_mesh_failed mE mR n _ h1 hmask hfail
  have hrun : runMeshLoop mE mR (pre ++ n :: post) fs =
      ((runMeshLoop mE mR pre fs).1 ++ NodeOutcome.failed ::
          (runMeshLoop mE mR post (runMeshLoop mE mR pre fs).2).1,
        (runMeshLoop mE mR post (runMeshLoop mE mR pre fs).2).2) := by
    rw [runMeshLoop_append mE mR pre (n :: post) fs]
    show _ = _
    rw [show runMeshLoop mE mR (n :: post) (runMeshLoop mE mR pre fs).2 =
        (NodeOutcome.failed ::
            (runMeshLoop mE mR post (runMeshLoop mE mR pre fs).2).1,
          (runMeshLoop mE mR post (runMeshLoop mE mR pre fs).2).2) from by
      show (let r := create_region_mesh mE mR n (runMeshLoop mE mR pre fs).2
        let rr := runMeshLoop mE mR post r.2
        (r.1 :: rr.1, rr.2)) = _
      rw [hstep]]
  have hfinal : (runMeshLoop mE mR (pre ++ n :: post) fs).2 (objPath n.id)
      = none := by
    rw [hrun]
    show (runMeshLoop mE mR post (runMeshLoop mE mR pre fs).2).2
        (objPath n.id) = none
    rw [runMeshLoop_frame mE mR post _ (objPath n.id) hpost]
    exact h1
  refine ⟨?_, by rw [hrun], hfinal, ?_⟩
  · rw [runMeshLoop_length]
    simp
    omega
  · apply buildMeshesDict_not_ok
    unfold fileOk
    rw [hfinal]

theorem mesh_failure_nonfatal_C6_witness :
    (runMeshLoop demoMaskEmpty demoMeshResult
        ([⟨1⟩] ++ ⟨2⟩ :: [⟨3⟩]) demoFSEmpty).1.length = 3 ∧
      buildMeshesDict [demoRecord]
        ((runMeshLoop demoMaskEmpty demoMeshResult
            ([⟨1⟩] ++ ⟨2⟩ :: [⟨3⟩]) demoFSEmpty).2)
        (MeshNode.mk 2).id = none :=
  ⟨(mesh_failure_nonfatal_C6 demoMaskEmpty demoMeshResult [⟨1⟩] [⟨3⟩] ⟨2⟩
      demoFSEmpty [demoRecord] rfl rfl rfl (by decide)).1,
    (mesh_failure_nonfatal_C6 demoMaskEmpty demoMeshResult [⟨1⟩] [⟨3⟩] ⟨2⟩
      demoFSEmpty [demoRecord] rfl rfl rfl (by decide)).2.2.2⟩

/-- C7: a node whose mesh file already exists before the run is skipped:
`create_region_mesh` returns `skipped` and leaves the entire directory (that
file and every other file) exactly as it was, and re-running the whole
per-node loop never changes that file's contents. -/
theorem mesh_skip_idempotent_C7 (mE : Int → Bool)
    (mR : Int → Option (List Nat)) (node : MeshNode) (fs : FS)
    (bytes : List Nat) (hfile : fs (objPath node.id) = some bytes) :
    create_region_mesh mE mR node fs = (NodeOutcome.skipped, fs) ∧
    (∀ p, (create_region_mesh mE mR node fs).2 p = fs p) ∧
    ∀ nodes : List MeshNode,
      (runMeshLoop mE mR nodes fs).2 (objPath node.id) = some bytes := by
  have hskip : create_region_mesh mE mR node fs =
      (NodeOutcome.skipped, fs) := by
    unfold create_region_mesh
    simp [hfile]
  exact ⟨hskip, fun p => by rw [hskip],
    fun nodes => runMeshLoop_preserves mE mR nodes fs _ bytes hfile⟩

theorem mesh_skip_idempotent_C7_witness :
    create_region_mesh demoMaskEmpty demoMeshResult ⟨7⟩ demoFS =
        (NodeOutcome.skipped, demoFS) ∧
      (runMeshLoop demoMaskEmpty demoMeshResult [⟨7⟩, ⟨2⟩] demoFS).2
          (objPath (MeshNode.mk 7).id) = some (List.replicate 512 0) :=
  ⟨(mesh_skip_idempotent_C7 demoMaskEmpty demoMeshResult ⟨7⟩ demoFS
      (List.replicate 512 0) rfl).1,
    (mesh_skip_idempotent_C7 demoMaskEmpty demoMeshResult ⟨7⟩ demoFS
      (List.replicate 512 0) rfl).2.2 [⟨7⟩, ⟨2⟩]⟩
